import Mathlib

/-!
Verification of the `flask-simple-crypt` encryption module
(`flask_simple_crypt.py`, class `SimpleCrypt`).

The Python source is shallowly embedded: byte strings become `List Nat`
(each element a byte value), Python `str` values become `List Char`, and
the external `pycryptodome` primitives (HMAC-SHA256, PBKDF2, the AES block
cipher) are abstracted as a bundle of function parameters `CryptoLib`,
since their internals are outside this repository.  Everything written by
the repository itself — envelope layout, validation order, key expansion,
the CTR-mode counter layout, and the MAC check — is translated line by
line from the source.

Library facts used by the embedding (from the pycryptodome documentation):
`Crypto.Util.Counter.new(nbits, prefix)` produces a big-endian counter
whose initial value defaults to 1, `AES.block_size = 16`, and
`SHA256.digest_size = 32`.
-/

/-- A Python value that is either a byte string or a decoded text string
(`bytes` vs `str`).  `SimpleCrypt.encrypt` and `SimpleCrypt.decrypt`
accept either at the type level; `decrypt` rejects text at run time. -/
inductive PyData where
  | bytes (b : List Nat)
  | text (s : List Char)
deriving DecidableEq, Repr

/-- Python falsiness of the values used as keys/passwords: `not data` is
true exactly for the empty bytes/str. -/
def pyNot : PyData → Bool
  | .bytes b => b.isEmpty
  | .text s => s.isEmpty

/-- UTF-8 encoding of one character, as Python's `str.encode("utf8")`
produces it (byte values as `Nat`). -/
def utf8EncodeCharM (c : Char) : List Nat :=
  let v := c.toNat
  if v < 128 then [v]
  else if v < 2048 then [192 + v / 64, 128 + v % 64]
  else if v < 65536 then [224 + v / 4096, 128 + (v / 64) % 64, 128 + v % 64]
  else [240 + v / 262144, 128 + (v / 4096) % 64, 128 + (v / 64) % 64, 128 + v % 64]

/-- UTF-8 encoding of a Python `str` (Python `s.encode("utf8")`). -/
def utf8Bytes (s : List Char) : List Nat :=
  s.flatMap utf8EncodeCharM

/-- Model of `SimpleCrypt._str_to_bytes`: a `str` is UTF-8 encoded, `bytes` pass
through unchanged. -/
def str_to_bytes : PyData → List Nat
  | .text s => utf8Bytes s
  | .bytes b => b

/-- The distinct raise sites of the module.  The Python code raises
`DecryptionException` (notUnicode, badHeader, missingData, badMac),
`EncryptionException` (tooLong), `ValueError` (missingSalt,
missingPassword) and `RuntimeError` (configError); the constructors also
record which raise fired. -/
inductive Err where
  | notUnicode
  | badHeader
  | missingData
  | badMac
  | tooLong
  | missingSalt
  | missingPassword
  | configError
deriving DecidableEq, Repr

/-- The external `pycryptodome` primitives the module calls, abstracted as
functions: `HMAC k m` is `HMAC.new(k, m, SHA256).digest()`, `PBKDF2 pw
salt dkLen count` is `PBKDF2(pw, salt, dkLen=dkLen, count=count,
prf=HMAC-SHA256)`, and `AESBlockEnc k b` is the AES-256 encryption of the
16-byte block `b` under the 32-byte key `k`. -/
structure CryptoLib where
  HMAC : List Nat → List Nat → List Nat
  PBKDF2 : List Nat → List Nat → Nat → Nat → List Nat
  AESBlockEnc : List Nat → List Nat → List Nat

/-- Big-endian encoding of `v` into `k` bytes (the counter field of
`Crypto.Util.Counter`), truncating to the low `k` bytes. -/
def natToBytesBE : Nat → Nat → List Nat
  | 0, _ => []
  | k + 1, v => natToBytesBE k (v / 256) ++ [v % 256]

/-- The successive AES outputs of CTR mode: `cnt` blocks, the counter
field holding `start`, `start+1`, ... (big-endian, `nbytes` wide),
prefixed by `pre`. -/
def keystreamBlocks (c : CryptoLib) (key : List Nat) (nbytes : Nat) (pre : List Nat) :
    Nat → Nat → List Nat
  | 0, _ => []
  | cnt + 1, start =>
      c.AESBlockEnc key (pre ++ natToBytesBE nbytes start) ++
        keystreamBlocks c key nbytes pre cnt (start + 1)

/-- Model of `AES.new(key, AES.MODE_CTR, counter=Counter.new(nbits, prefix=pre))`
applied to `data`: XOR with the keystream.  The counter field is `nbits`
bits wide and starts at 1 (`Counter.new`'s default `initial_value`);
blocks are 16 bytes (`AES.block_size`). -/
def ctrCrypt (c : CryptoLib) (key : List Nat) (nbits : Nat) (pre data : List Nat) : List Nat :=
  List.zipWith Nat.xor data
    ((keystreamBlocks c key (nbits / 8) pre ((data.length + 15) / 16) 1).take data.length)

/-- The magic bytes `b"fsc"`. -/
def fscMagic : List Nat := [102, 115, 99]

/-- The instance attributes of `SimpleCrypt` (set in `__init__` /
`init_app`; `DIGEST_SIZE` stands for `self.HASH.digest_size`, i.e. 32 for
SHA256).  `FSC_KEY` and `EXPANSION_COUNT` model a configured instance. -/
structure SC where
  AES_KEY_LEN : Nat
  SALT_LEN : Nat
  DIGEST_SIZE : Nat
  PREFIX : List Nat
  HEADER : List Nat
  HALF_BLOCK : Nat
  HEADER_LEN : Nat
  EXPANSION_COUNT : Nat
  FSC_KEY : PyData
deriving DecidableEq, Repr

/-- The configured `SimpleCrypt` state: the constant attributes assigned
by `__init__` (`AES_KEY_LEN = 256`, `SALT_LEN = 256`, `PREFIX = b"fsc"`,
`HEADER = PREFIX + b"\x00\x02"`, `HALF_BLOCK = AES.block_size*8//2 = 64`,
`HEADER_LEN = 5`) together with the key and expansion count assigned by
`init_app`. -/
def stdSC (key : PyData) (count : Nat) : SC :=
  { AES_KEY_LEN := 256
    SALT_LEN := 256
    DIGEST_SIZE := 32
    PREFIX := fscMagic
    HEADER := fscMagic ++ [0, 2]
    HALF_BLOCK := 16 * 8 / 2
    HEADER_LEN := (fscMagic ++ [0, 2]).length
    EXPANSION_COUNT := count
    FSC_KEY := key }

/-- Model of `SimpleCrypt.init_app`: reads `SECRET_KEY` (raises `RuntimeError` when
missing or falsy) and `FSC_EXPANSION_COUNT` (default 10000) from the app
config, and assigns `EXPANSION_COUNT` and `FSC_KEY`. -/
def init_app (cfgKey : Option PyData) (cfgCount : Option Nat) : Except Err SC :=
  match cfgKey with
  | none => .error .configError
  | some k => if pyNot k then .error .configError else .ok (stdSC k (cfgCount.getD 10000))

/-- Model of `SimpleCrypt._assert_not_unicode`: raises when the argument is a
decoded text value. -/
def assert_not_unicode : PyData → Except Err Unit
  | .text _ => .error .notUnicode
  | .bytes _ => .ok ()

/-- Model of `SimpleCrypt._assert_encrypt_length`: raises when
`len(data) > 2 ** HALF_BLOCK`. -/
def assert_encrypt_length (st : SC) (data : List Nat) : Except Err Unit :=
  if data.length > 2 ^ st.HALF_BLOCK then .error .tooLong else .ok ()

/-- Model of `SimpleCrypt._assert_decrypt_length`: raises when
`len(data) < HEADER_LEN + SALT_LEN//8 + digest_size`. -/
def assert_decrypt_length (st : SC) (data : List Nat) : Except Err Unit :=
  if data.length < st.HEADER_LEN + st.SALT_LEN / 8 + st.DIGEST_SIZE then
    .error .missingData
  else .ok ()

/-- Model of `SimpleCrypt._assert_header_prefix`: raises when the input has at
least 3 bytes and they differ from the magic bytes. -/
def assert_header_prefix (st : SC) (data : List Nat) : Except Err Unit :=
  if 3 ≤ data.length ∧ data.take 3 ≠ st.PREFIX then .error .badHeader else .ok ()

/-- Model of `SimpleCrypt._hmac`: `HMAC.new(key, data, SHA256).digest()`. -/
def hmacM (c : CryptoLib) (key data : List Nat) : List Nat :=
  c.HMAC key data

/-- Model of `SimpleCrypt._assert_hmac`: compares `HMAC(key, hmac)` with
`HMAC(key, hmac2)` (both tags re-keyed before the comparison) and raises
on mismatch. -/
def assert_hmac (c : CryptoLib) (key hmac hmac2 : List Nat) : Except Err Unit :=
  if hmacM c key hmac ≠ hmacM c key hmac2 then .error .badMac else .ok ()

/-- Model of `SimpleCrypt._pbkdf2`: `PBKDF2(password, salt, dkLen=n_bytes,
count=count, prf=HMAC-SHA256)`. -/
def pbkdf2M (c : CryptoLib) (password salt : List Nat) (n_bytes count : Nat) : List Nat :=
  c.PBKDF2 password salt n_bytes count

/-- Model of `SimpleCrypt._expand_keys`: checks salt and password non-empty, runs
PBKDF2 for `2 * AES_KEY_LEN//8` bytes, and splits the output into the
HMAC key (first half) and cipher key (second half). -/
def expand_keys (c : CryptoLib) (st : SC) (password : PyData) (salt : List Nat)
    (expansion_count : Nat) : Except Err (List Nat × List Nat) :=
  if salt = [] then .error .missingSalt
  else if pyNot password then .error .missingPassword
  else
    let key_len := st.AES_KEY_LEN / 8
    let keys := pbkdf2M c (str_to_bytes password) salt (2 * key_len) expansion_count
    .ok (keys.take key_len, keys.drop key_len)

/-- Model of `SimpleCrypt._hide`: whitens raw random bytes through PBKDF2 with an
empty salt and a single iteration. -/
def hide (c : CryptoLib) (ranbytes : List Nat) : List Nat :=
  pbkdf2M c ranbytes [] ranbytes.length 1

/-- Model of `SimpleCrypt._random_bytes`: draws `n` raw bytes from the system
random source and whitens them.  The drawn raw bytes are supplied as the
`ranbits` argument (the embedding makes the randomness explicit); the call
in `encrypt` draws `SALT_LEN//8 = 32` of them. -/
def random_bytes (c : CryptoLib) (ranbits : List Nat) : List Nat :=
  hide c ranbits

/-- Model of `SimpleCrypt.encrypt`: convert text to bytes, check the length bound,
generate the salt, expand keys, apply AES-CTR with the counter prefixed by
`salt[:HALF_BLOCK//8]`, MAC `HEADER + salt + ciphertext`, and concatenate.
`ranbits` are the raw bytes drawn from the random source. -/
def encrypt (c : CryptoLib) (st : SC) (data : PyData) (ranbits : List Nat) :
    Except Err (List Nat) :=
  let d := str_to_bytes data
  match assert_encrypt_length st d with
  | .error e => .error e
  | .ok _ =>
    let salt := random_bytes c ranbits
    match expand_keys c st st.FSC_KEY salt st.EXPANSION_COUNT with
    | .error e => .error e
    | .ok (hmac_key, cipher_key) =>
      let encrypted := ctrCrypt c cipher_key st.HALF_BLOCK (salt.take (st.HALF_BLOCK / 8)) d
      let hmac := hmacM c hmac_key (st.HEADER ++ salt ++ encrypted)
      .ok (st.HEADER ++ salt ++ encrypted ++ hmac)

/-- Body of `SimpleCrypt.decrypt` once the input is known to be bytes:
header check, length check, slicing by the fixed offsets, key expansion,
MAC comparison, and only then the CTR transform. -/
def decryptBytes (c : CryptoLib) (st : SC) (data : List Nat) : Except Err (List Nat) :=
  match assert_header_prefix st data with
  | .error e => .error e
  | .ok _ =>
    match assert_decrypt_length st data with
    | .error e => .error e
    | .ok _ =>
      let raw := data.drop st.HEADER_LEN
      let salt := raw.take (st.SALT_LEN / 8)
      match expand_keys c st st.FSC_KEY salt st.EXPANSION_COUNT with
      | .error e => .error e
      | .ok (hmac_key, cipher_key) =>
        let hmac := raw.drop (raw.length - st.DIGEST_SIZE)
        let hmac2 := hmacM c hmac_key (data.take (data.length - st.DIGEST_SIZE))
        match assert_hmac c hmac_key hmac hmac2 with
        | .error e => .error e
        | .ok _ =>
          .ok (ctrCrypt c cipher_key st.HALF_BLOCK (salt.take (st.HALF_BLOCK / 8))
            ((raw.drop (st.SALT_LEN / 8)).take (raw.length - st.SALT_LEN / 8 - st.DIGEST_SIZE)))

/-- Model of `SimpleCrypt.decrypt`: rejects text input, then processes the byte
envelope.  (The `.text` fallback branch is unreachable: the unicode check
has already raised.) -/
def decrypt (c : CryptoLib) (st : SC) (data : PyData) : Except Err (List Nat) :=
  match assert_not_unicode data with
  | .error e => .error e
  | .ok _ =>
    match data with
    | .text _ => .error .notUnicode
    | .bytes b => decryptBytes c st b

/-! State-threaded versions of the two public methods.  Python methods
receive `self` and could assign its attributes; the embedding threads the
instance through every helper call so that the frame property (no
attribute is assigned outside `__init__` / `init_app`) is a statement, not
a typing accident.  Each helper returns the instance it received because
its body contains no attribute assignment. -/

/-- Model of `_assert_not_unicode` with the instance threaded through. -/
def assert_not_unicodeS (st : SC) (d : PyData) : Except Err Unit × SC :=
  (assert_not_unicode d, st)

/-- Model of `_assert_header_prefix` with the instance threaded through. -/
def assert_header_prefixS (st : SC) (data : List Nat) : Except Err Unit × SC :=
  ( assert_header_prefix st data, st)

/-- Model of `_assert_decrypt_length` with the instance threaded through. -/
def assert_decrypt_lengthS (st : SC) (data : List Nat) : Except Err Unit × SC :=
  (assert_decrypt_length st data, st)

/-- Model of `_assert_encrypt_length` with the instance threaded through. -/
def assert_encrypt_lengthS (st : SC) (data : List Nat) : Except Err Unit × SC :=
  (assert_encrypt_length st data, st)

/-- Model of `_expand_keys` with the instance threaded through. -/
def expand_keysS (c : CryptoLib) (st : SC) (password : PyData) (salt : List Nat)
    (expansion_count : Nat) : Except Err (List Nat × List Nat) × SC :=
  (expand_keys c st password salt expansion_count, st)

/-- Model of `_assert_hmac` with the instance threaded through. -/
def assert_hmacS (c : CryptoLib) (st : SC) (key hmac hmac2 : List Nat) :
    Except Err Unit × SC :=
  (assert_hmac c key hmac hmac2, st)

/-- Model of `SimpleCrypt.encrypt` in state-threading form: the instance returned
with the result is the one produced by the chain of helper calls. -/
def encryptS (c : CryptoLib) (st : SC) (data : PyData) (ranbits : List Nat) :
    Except Err (List Nat) × SC :=
  let d := str_to_bytes data
  match assert_encrypt_lengthS st d with
  | (.error e, st1) => (.error e, st1)
  | (.ok _, st1) =>
    let salt := random_bytes c ranbits
    match expand_keysS c st1 st1.FSC_KEY salt st1.EXPANSION_COUNT with
    | (.error e, st2) => (.error e, st2)
    | (.ok (hmac_key, cipher_key), st2) =>
      let encrypted := ctrCrypt c cipher_key st2.HALF_BLOCK (salt.take (st2.HALF_BLOCK / 8)) d
      let hmac := hmacM c hmac_key (st2.HEADER ++ salt ++ encrypted)
      (.ok (st2.HEADER ++ salt ++ encrypted ++ hmac), st2)

/-- Model of `SimpleCrypt.decrypt` in state-threading form. -/
def decryptS (c : CryptoLib) (st : SC) (data : PyData) : Except Err (List Nat) × SC :=
  match assert_not_unicodeS st data with
  | (.error e, st1) => (.error e, st1)
  | (.ok _, st1) =>
    match data with
    | .text _ => (.error .notUnicode, st1)
    | .bytes b =>
      match assert_header_prefixS st1 b with
      | (.error e, st2) => (.error e, st2)
      | (.ok _, st2) =>
        match assert_decrypt_lengthS st2 b with
        | (.error e, st3) => (.error e, st3)
        | (.ok _, st3) =>
          let raw := b.drop st3.HEADER_LEN
          let salt := raw.take (st3.SALT_LEN / 8)
          match expand_keysS c st3 st3.FSC_KEY salt st3.EXPANSION_COUNT with
          | (.error e, st4) => (.error e, st4)
          | (.ok (hmac_key, cipher_key), st4) =>
            let hmac := raw.drop (raw.length - st4.DIGEST_SIZE)
            let hmac2 := hmacM c hmac_key (b.take (b.length - st4.DIGEST_SIZE))
            match assert_hmacS c st4 hmac_key hmac hmac2 with
            | (.error e, st5) => (.error e, st5)
            | (.ok _, st5) =>
              (.ok (ctrCrypt c cipher_key st5.HALF_BLOCK (salt.take (st5.HALF_BLOCK / 8))
                ((raw.drop (st5.SALT_LEN / 8)).take
                  (raw.length - st5.SALT_LEN / 8 - st5.DIGEST_SIZE))), st5)

/-- Modelled from the spec: the Cipher Engine as §4.3 words it, with the
counter's low-order half "incrementing per block starting at zero".  Used
only to compare the spec's counter convention with the code's
(`Counter.new` starts at its default initial value 1). -/
def ctrCryptSpecZero (c : CryptoLib) (key : List Nat) (nbits : Nat) (pre data : List Nat) :
    List Nat :=
  List.zipWith Nat.xor data
    ((keystreamBlocks c key (nbits / 8) pre ((data.length + 15) / 16) 0).take data.length)

/-- A concrete, fully computable primitive bundle used to instantiate the
abstract `CryptoLib` in witnesses: the MAC is the 32-byte zero-padded
truncation of the message (injective on 32-byte inputs), PBKDF2 returns
the requested number of 7-bytes, and the block cipher is the 16-byte
zero-padded truncation of the input block (so the counter block is visible
in the keystream). -/
def cWit : CryptoLib :=
  { HMAC := fun _ m => (m ++ List.replicate 32 0).take 32
    PBKDF2 := fun _ _ n _ => List.replicate n 7
    AESBlockEnc := fun _ b => (b ++ List.replicate 16 0).take 16 }

/-- The key pair `_expand_keys` derives for the configured parameters
(`AES_KEY_LEN//8 = 32`, so PBKDF2 emits 64 bytes split in half): first the
HMAC key, then the cipher key. -/
def derivedKeys (c : CryptoLib) (key : PyData) (salt : List Nat) (count : Nat) :
    List Nat × List Nat :=
  ((pbkdf2M c (str_to_bytes key) salt 64 count).take 32,
   (pbkdf2M c (str_to_bytes key) salt 64 count).drop 32)

/-- The envelope `encrypt` assembles for a given salt:
`HEADER ++ salt ++ ciphertext ++ mac`. -/
def envelope (c : CryptoLib) (key : PyData) (count : Nat) (salt p : List Nat) : List Nat :=
  (fscMagic ++ [0, 2]) ++ salt ++
    ctrCrypt c (derivedKeys c key salt count).2 64 (salt.take 8) p ++
    hmacM c (derivedKeys c key salt count).1
      ((fscMagic ++ [0, 2]) ++ salt ++ ctrCrypt c (derivedKeys c key salt count).2 64 (salt.take 8) p)

theorem natToBytesBE_length (k v : Nat) : (natToBytesBE k v).length = k := by
  induction k generalizing v with
  | zero => rfl
  | succ k ih => simp [natToBytesBE, ih]

theorem keystreamBlocks_length (c : CryptoLib) (key : List Nat) (nb : Nat) (pre : List Nat)
    (haes : ∀ k b, (c.AESBlockEnc k b).length = 16) (cnt start : Nat) :
    (keystreamBlocks c key nb pre cnt start).length = 16 * cnt := by
  induction cnt generalizing start with
  | zero => rfl
  | succ n ih => simp [keystreamBlocks, haes, ih]; omega

theorem ctrCrypt_length (c : CryptoLib) (key : List Nat) (nbits : Nat) (pre data : List Nat)
    (haes : ∀ k b, (c.AESBlockEnc k b).length = 16) :
    (ctrCrypt c key nbits pre data).length = data.length := by
  simp [ctrCrypt, List.length_take, keystreamBlocks_length c key _ pre haes]
  omega

theorem zipWith_xor_xor : ∀ (a b : List Nat), a.length ≤ b.length →
    List.zipWith Nat.xor (List.zipWith Nat.xor a b) b = a := by
  intro a
  induction a with
  | nil => intro b _; rfl
  | cons x a ih =>
    intro b hb
    cases b with
    | nil => simp at hb
    | cons y b =>
      simp only [List.zipWith]
      have hx : Nat.xor (Nat.xor x y) y = x := by
        show x ^^^ y ^^^ y = x
        rw [Nat.xor_assoc, Nat.xor_self, Nat.xor_zero]
      rw [hx, ih b (by simpa using hb)]

theorem ctrCrypt_ctrCrypt (c : CryptoLib) (key : List Nat) (nbits : Nat) (pre data : List Nat)
    (haes : ∀ k b, (c.AESBlockEnc k b).length = 16) :
    ctrCrypt c key nbits pre (ctrCrypt c key nbits pre data) = data := by
  have hlen := ctrCrypt_length c key nbits pre data haes
  unfold ctrCrypt at hlen ⊢
  rw [hlen]
  apply zipWith_xor_xor
  simp [keystreamBlocks_length c key _ pre haes]
  omega

theorem expand_keys_std (c : CryptoLib) (key : PyData) (count : Nat) (salt : List Nat)
    (hne : salt ≠ []) (hkey : pyNot key = false) :
    expand_keys c (stdSC key count) key salt count = .ok (derivedKeys c key salt count) := by
  simp [expand_keys, stdSC, derivedKeys, hne, hkey]


theorem salt_take_len (salt : List Nat) (h : salt.length = 32) : salt ≠ [] := by
  intro hnil
  rw [hnil] at h
  simp at h

theorem encrypt_ok (c : CryptoLib) (key : PyData) (count : Nat) (ranbits p : List Nat)
    (hpb : ∀ pw s n cnt, (c.PBKDF2 pw s n cnt).length = n)
    (hkey : pyNot key = false)
    (hraw : ranbits.length = 32)
    (hlen : p.length ≤ 2 ^ 64) :
    encrypt c (stdSC key count) (.bytes p) ranbits =
      .ok (envelope c key count (random_bytes c ranbits) p) := by
  have hsl : (random_bytes c ranbits).length = 32 := by
    simp [random_bytes, hide, pbkdf2M, hpb, hraw]
  have hne : random_bytes c ranbits ≠ [] := salt_take_len _ hsl
  have hFK : (stdSC key count).FSC_KEY = key := rfl
  have hEC : (stdSC key count).EXPANSION_COUNT = count := rfl
  have hHB : (stdSC key count).HALF_BLOCK = 64 := rfl
  have hHD : (stdSC key count).HEADER = fscMagic ++ [0, 2] := rfl
  have h1 : assert_encrypt_length (stdSC key count) p = .ok () := by
    simp only [assert_encrypt_length, hHB]
    rw [if_neg (by omega)]
  have h2 := expand_keys_std c key count (random_bytes c ranbits) hne hkey
  simp only [encrypt, str_to_bytes, hFK, hEC, hHB, hHD, h1, h2]
  simp only [derivedKeys]
  simp [envelope, derivedKeys, List.append_assoc]

theorem decryptBytes_parse (c : CryptoLib) (key : PyData) (count : Nat) (salt e mc : List Nat)
    (hkey : pyNot key = false) (hsalt : salt.length = 32) (hmc : mc.length = 32) :
    decryptBytes c (stdSC key count) ((fscMagic ++ [0, 2]) ++ (salt ++ (e ++ mc))) =
      match assert_hmac c (derivedKeys c key salt count).1 mc
          (hmacM c (derivedKeys c key salt count).1 (fscMagic ++ [0, 2] ++ salt ++ e)) with
      | .error er => .error er
      | .ok _ => .ok (ctrCrypt c (derivedKeys c key salt count).2 64 (salt.take 8) e) := by
  have hHlen : (fscMagic ++ [0, 2] : List Nat).length = 5 := by simp [fscMagic]
  have hHL : (stdSC key count).HEADER_LEN = 5 := rfl
  have hSL : (stdSC key count).SALT_LEN = 256 := rfl
  have hDS : (stdSC key count).DIGEST_SIZE = 32 := rfl
  have hHB : (stdSC key count).HALF_BLOCK = 64 := rfl
  have hFK : (stdSC key count).FSC_KEY = key := rfl
  have hEC : (stdSC key count).EXPANSION_COUNT = count := rfl
  have h1 : assert_header_prefix (stdSC key count) ((fscMagic ++ [0, 2]) ++ (salt ++ (e ++ mc)))
      = .ok () := by
    have ht : ((fscMagic ++ [0, 2]) ++ (salt ++ (e ++ mc))).take 3 = fscMagic := by
      rw [List.append_assoc]
      exact List.take_left' (by simp [fscMagic])
    simp only [ assert_header_prefix]
    rw [if_neg (fun hcon => hcon.2 ht)]
  have h2 : assert_decrypt_length (stdSC key count) ((fscMagic ++ [0, 2]) ++ (salt ++ (e ++ mc)))
      = .ok () := by
    simp only [assert_decrypt_length, hHL, hSL, hDS]
    rw [if_neg (by simp [fscMagic, hsalt, hmc]; omega)]
  have hraw : ((fscMagic ++ [0, 2]) ++ (salt ++ (e ++ mc))).drop 5 = salt ++ (e ++ mc) :=
    List.drop_left' hHlen
  have hsalttake : (salt ++ (e ++ mc)).take 32 = salt := List.take_left' hsalt
  have h4 := expand_keys_std c key count salt (salt_take_len salt hsalt) hkey
  have hembed : (salt ++ (e ++ mc)).drop ((salt ++ (e ++ mc)).length - 32) = mc := by
    rw [← List.append_assoc]
    exact List.drop_left' (by simp [hsalt, hmc]; omega)
  have hmsg : ((fscMagic ++ [0, 2]) ++ (salt ++ (e ++ mc))).take
      (((fscMagic ++ [0, 2]) ++ (salt ++ (e ++ mc))).length - 32) = fscMagic ++ [0, 2] ++ salt ++ e := by
    rw [show (fscMagic ++ [0, 2]) ++ (salt ++ (e ++ mc)) = (fscMagic ++ [0, 2] ++ salt ++ e) ++ mc from by
      simp [List.append_assoc]]
    exact List.take_left' (by simp [fscMagic, hsalt, hmc]; omega)
  have hpayload : ((salt ++ (e ++ mc)).drop 32).take ((salt ++ (e ++ mc)).length - 32 - 32) = e := by
    rw [List.drop_left' hsalt]
    have hl : (salt ++ (e ++ mc)).length - 32 - 32 = e.length := by simp [hsalt, hmc]
    rw [hl]
    exact List.take_left' rfl
  simp only [decryptBytes, hHL, hSL, hDS, hHB, hFK, hEC, h1, h2]
  simp only [hraw]
  simp only [show (256 : Nat) / 8 = 32 from by norm_num, show (64 : Nat) / 8 = 8 from by norm_num]
  simp only [hsalttake, h4, hembed, hmsg, hpayload]

theorem decrypt_envelope (c : CryptoLib) (key : PyData) (count : Nat) (salt p : List Nat)
    (hml : ∀ k m, (c.HMAC k m).length = 32)
    (haes : ∀ k b, (c.AESBlockEnc k b).length = 16)
    (hkey : pyNot key = false)
    (hsalt : salt.length = 32) :
    decrypt c (stdSC key count) (.bytes (envelope c key count salt p)) = .ok p := by
  have hmcl : (hmacM c (derivedKeys c key salt count).1
      (fscMagic ++ [0, 2] ++ salt ++ ctrCrypt c (derivedKeys c key salt count).2 64 (salt.take 8) p)).length = 32 := by
    simp [hmacM, hml]
  simp only [decrypt, assert_not_unicode]
  have henv : envelope c key count salt p =
      (fscMagic ++ [0, 2]) ++ (salt ++ (ctrCrypt c (derivedKeys c key salt count).2 64 (salt.take 8) p ++
        hmacM c (derivedKeys c key salt count).1
          (fscMagic ++ [0, 2] ++ salt ++ ctrCrypt c (derivedKeys c key salt count).2 64 (salt.take 8) p))) := by
    simp [envelope, List.append_assoc]
  rw [henv]
  rw [decryptBytes_parse c key count salt _ _ hkey hsalt hmcl]
  have hsame : assert_hmac c (derivedKeys c key salt count).1
      (hmacM c (derivedKeys c key salt count).1
        (fscMagic ++ [0, 2] ++ salt ++ ctrCrypt c (derivedKeys c key salt count).2 64 (salt.take 8) p))
      (hmacM c (derivedKeys c key salt count).1
        (fscMagic ++ [0, 2] ++ salt ++ ctrCrypt c (derivedKeys c key salt count).2 64 (salt.take 8) p)) = .ok () := by
    simp [assert_hmac]
  rw [hsame]
  rw [ctrCrypt_ctrCrypt c (derivedKeys c key salt count).2 64 (salt.take 8) p haes]

/-- C1: for every byte plaintext `p` with `len(p)` within the counter-mode
length bound (`≤ 2^64`), any non-empty secret key, any positive expansion
count, and every salt the salt generator may produce (the generator
whitens 32 raw random bytes through PBKDF2), decrypting the envelope
produced by `encrypt` with the same key and count returns `p`.  The
primitive bundle `c` is arbitrary subject only to the output-length laws
of PBKDF2, HMAC-SHA256 and the AES block operation. -/
theorem C1_roundtrip (c : CryptoLib) (key : PyData) (count : Nat) (ranbits p : List Nat)
    (hpb : ∀ pw s n cnt, (c.PBKDF2 pw s n cnt).length = n)
    (hml : ∀ k m, (c.HMAC k m).length = 32)
    (haes : ∀ k b, (c.AESBlockEnc k b).length = 16)
    (hkey : pyNot key = false)
    (hcount : 0 < count)
    (hraw : ranbits.length = 32)
    (hlen : p.length ≤ 2 ^ 64) :
    ∀ ct, encrypt c (stdSC key count) (.bytes p) ranbits = .ok ct →
      decrypt c (stdSC key count) (.bytes ct) = .ok p := by
  intro ct hct
  rw [encrypt_ok c key count ranbits p hpb hkey hraw hlen] at hct
  injection hct with h
  subst h
  exact decrypt_envelope c key count (random_bytes c ranbits) p hml haes hkey
    (by simp [random_bytes, hide, pbkdf2M, hpb, hraw])

theorem cWit_pb : ∀ pw s n cnt, (cWit.PBKDF2 pw s n cnt).length = n := by
  intro pw s n cnt
  simp [cWit]

theorem cWit_ml : ∀ k m, (cWit.HMAC k m).length = 32 := by
  intro k m
  simp [cWit]

theorem cWit_aes : ∀ k b, (cWit.AESBlockEnc k b).length = 16 := by
  intro k b
  simp [cWit]

/-- Witness for C1 at a concrete instance: the fully computed envelope of
the plaintext `b"hi"` decrypts back to it. -/
theorem C1_roundtrip_witness :
    decrypt cWit (stdSC (.bytes [1]) 1)
      (.bytes ([102, 115, 99, 0, 2] ++ (List.replicate 32 7 ++ ([111, 110] ++
        ([102, 115, 99, 0, 2] ++ List.replicate 27 7))))) = .ok [104, 105] :=
  C1_roundtrip cWit (.bytes [1]) 1 (List.replicate 32 0) [104, 105]
    cWit_pb cWit_ml cWit_aes rfl (by decide) (by simp) (by decide)
    ([102, 115, 99, 0, 2] ++ (List.replicate 32 7 ++ ([111, 110] ++
      ([102, 115, 99, 0, 2] ++ List.replicate 27 7)))) (by rfl)

/-- C5: for every n-byte plaintext within the length bound, `encrypt`
returns `b"fsc\x00\x02" || salt[32] || ciphertext[n] || mac[32]`, total
length `69 + n`, with the ciphertext exactly as long as the plaintext. -/
theorem C5_envelope_structure (c : CryptoLib) (key : PyData) (count : Nat) (ranbits p : List Nat)
    (hpb : ∀ pw s n cnt, (c.PBKDF2 pw s n cnt).length = n)
    (hml : ∀ k m, (c.HMAC k m).length = 32)
    (haes : ∀ k b, (c.AESBlockEnc k b).length = 16)
    (hkey : pyNot key = false)
    (hraw : ranbits.length = 32)
    (hlen : p.length ≤ 2 ^ 64) :
    ∃ salt ctb mac,
      encrypt c (stdSC key count) (.bytes p) ranbits =
        .ok ([102, 115, 99, 0, 2] ++ (salt ++ (ctb ++ mac))) ∧
      salt.length = 32 ∧ ctb.length = p.length ∧ mac.length = 32 ∧
      ([102, 115, 99, 0, 2] ++ (salt ++ (ctb ++ mac))).length = 69 + p.length := by
  have hsl : (random_bytes c ranbits).length = 32 := by
    simp [random_bytes, hide, pbkdf2M, hpb, hraw]
  refine ⟨random_bytes c ranbits,
    ctrCrypt c (derivedKeys c key (random_bytes c ranbits) count).2 64
      ((random_bytes c ranbits).take 8) p,
    hmacM c (derivedKeys c key (random_bytes c ranbits) count).1
      (fscMagic ++ [0, 2] ++ random_bytes c ranbits ++
        ctrCrypt c (derivedKeys c key (random_bytes c ranbits) count).2 64
          ((random_bytes c ranbits).take 8) p),
    ?_, hsl, ?_, ?_, ?_⟩
  · have h := encrypt_ok c key count ranbits p hpb hkey hraw hlen
    rw [h]
    simp [envelope, fscMagic, List.append_assoc]
  · exact ctrCrypt_length c _ 64 _ p haes
  · simp [hmacM, hml]
  · simp [hsl, ctrCrypt_length c _ 64 _ p haes, hmacM, hml]
    omega

/-- Witness for C5 at a concrete instance: the envelope of the 2-byte
plaintext `b"hi"` is 71 bytes with the stated layout. -/
theorem C5_envelope_structure_witness :
    ∃ salt ctb mac,
      encrypt cWit (stdSC (.bytes [1]) 1) (.bytes [104, 105]) (List.replicate 32 0) =
        .ok ([102, 115, 99, 0, 2] ++ (salt ++ (ctb ++ mac))) ∧
      salt.length = 32 ∧ ctb.length = [104, 105].length ∧ mac.length = 32 ∧
      ([102, 115, 99, 0, 2] ++ (salt ++ (ctb ++ mac))).length = 69 + [104, 105].length :=
  C5_envelope_structure cWit (.bytes [1]) 1 (List.replicate 32 0) [104, 105]
    cWit_pb cWit_ml cWit_aes rfl (by simp) (by decide)

/-- C2: for every well-formed envelope (magic header, 32-byte salt, any
ciphertext, 32-byte embedded MAC) whose embedded MAC differs from the MAC
recomputed over header + salt + ciphertext with the derived MAC key,
`decrypt` returns the authentication error and no plaintext.  The code
compares `HMAC(key, tagA)` with `HMAC(key, tagB)` rather than the raw
tags, so the statement assumes the modelled HMAC is collision-free on
32-byte inputs under the derived key (true of real HMAC-SHA256 up to
finding a collision).  No length law for the block cipher is assumed at
all: the conclusion holds whatever `AESBlockEnc` is, which is the
shallow-embedding form of "the cipher is applied only after the MAC
comparison succeeds". -/
theorem C2_bad_mac (c : CryptoLib) (key : PyData) (count : Nat) (salt ctb mc : List Nat)
    (hml : ∀ k m, (c.HMAC k m).length = 32)
    (hkey : pyNot key = false)
    (hsalt : salt.length = 32)
    (hmc : mc.length = 32)
    (hinj : ∀ a b : List Nat, a.length = 32 → b.length = 32 →
      c.HMAC (derivedKeys c key salt count).1 a = c.HMAC (derivedKeys c key salt count).1 b →
        a = b)
    (hne : mc ≠ hmacM c (derivedKeys c key salt count).1 (fscMagic ++ [0, 2] ++ salt ++ ctb)) :
    decrypt c (stdSC key count) (.bytes ((fscMagic ++ [0, 2]) ++ (salt ++ (ctb ++ mc)))) =
      .error .badMac := by
  simp only [decrypt, assert_not_unicode]
  rw [decryptBytes_parse c key count salt ctb mc hkey hsalt hmc]
  have hcmp : hmacM c (derivedKeys c key salt count).1 mc ≠
      hmacM c (derivedKeys c key salt count).1
        (hmacM c (derivedKeys c key salt count).1 (fscMagic ++ [0, 2] ++ salt ++ ctb)) := by
    intro heq
    exact hne (hinj mc _ hmc (by simp [hmacM, hml]) heq)
  simp only [assert_hmac]
  rw [if_pos hcmp]

theorem cWit_hmac_inj (k : List Nat) : ∀ a b : List Nat, a.length = 32 → b.length = 32 →
    cWit.HMAC k a = cWit.HMAC k b → a = b := by
  intro a b ha hb heq
  simp only [cWit] at heq
  rwa [List.take_left' ha, List.take_left' hb] at heq

/-- Witness for C2 at a concrete instance: an envelope whose embedded MAC
is 32 nines (while the recomputed MAC starts with the header bytes) is
rejected with the authentication error. -/
theorem C2_bad_mac_witness :
    decrypt cWit (stdSC (.bytes [1]) 1)
      (.bytes ((fscMagic ++ [0, 2]) ++ (List.replicate 32 2 ++ ([] ++ List.replicate 32 9)))) =
      .error .badMac :=
  C2_bad_mac cWit (.bytes [1]) 1 (List.replicate 32 2) [] (List.replicate 32 9)
    cWit_ml rfl (by simp) (by simp)
    (cWit_hmac_inj (derivedKeys cWit (.bytes [1]) (List.replicate 32 2) 1).1)
    (by decide)

/-- Counterexample to C3 as stated: the 3-byte input `b"\x00\x00\x00"` is
shorter than 69 bytes and its first 3 bytes differ from the magic bytes,
yet `decrypt` raises the bad-header error, not the missing-data error —
`_assert_header_prefix` runs before `_assert_decrypt_length` in
`SimpleCrypt.decrypt`. -/
theorem C3_counterexample :
    decrypt cWit (stdSC (.bytes [1]) 1) (.bytes [0, 0, 0]) = .error .badHeader ∧
      Err.badHeader ≠ Err.missingData :=
  ⟨rfl, by decide⟩

/-- C3 (amended): for every bytes input shorter than
`HEADER_LEN + SALT_LEN + MAC_LEN = 69` bytes, `decrypt` raises the
missing-data error provided the input is shorter than 3 bytes (the empty
sequence included) or its first 3 bytes match the magic bytes; a short
input of 3 to 68 bytes whose first 3 bytes differ from the magic bytes
instead raises the bad-header error, because the prefix check precedes the
length check. -/
theorem C3_short_input (c : CryptoLib) (key : PyData) (count : Nat) (data : List Nat)
    (hshort : data.length < 69)
    (hpre : data.length < 3 ∨ data.take 3 = fscMagic) :
    decrypt c (stdSC key count) (.bytes data) = .error .missingData := by
  simp only [decrypt, assert_not_unicode]
  have h1 : assert_header_prefix (stdSC key count) data = .ok () := by
    simp only [ assert_header_prefix]
    rw [if_neg]
    intro hcon
    rcases hpre with h | h
    · omega
    · exact hcon.2 h
  have h2 : assert_decrypt_length (stdSC key count) data = .error .missingData := by
    simp only [assert_decrypt_length,
      show (stdSC key count).HEADER_LEN = 5 from rfl,
      show (stdSC key count).SALT_LEN = 256 from rfl,
      show (stdSC key count).DIGEST_SIZE = 32 from rfl]
    rw [if_pos (by omega)]
  simp only [decryptBytes, h1, h2]

/-- Witness for C3 (amended) at a concrete instance: the empty input is
rejected with the missing-data error. -/
theorem C3_short_input_witness :
    decrypt cWit (stdSC (.bytes [1]) 1) (.bytes []) = .error .missingData :=
  C3_short_input cWit (.bytes [1]) 1 [] (by simp) (Or.inl (by simp))

/-- Counterexample to C4 as stated: a plaintext of exactly `2^64` bytes is
not rejected — `_assert_encrypt_length` raises only when
`len(data) > 2**64` (strict), so `encrypt` succeeds at the boundary
length instead of raising the encryption-length error. -/
theorem C4_counterexample :
    encrypt cWit (stdSC (.bytes [1]) 1) (.bytes (List.replicate (2 ^ 64) 0))
      (List.replicate 32 0) ≠ .error .tooLong := by
  have h := encrypt_ok cWit (.bytes [1]) 1 (List.replicate 32 0) (List.replicate (2 ^ 64) 0)
    cWit_pb rfl (List.length_replicate 32 0) (le_of_eq (List.length_replicate (2 ^ 64) 0))
  rw [h]
  intro hcon
  exact Except.noConfusion hcon

/-- C4 (amended): for every plaintext whose byte length strictly exceeds
`2^64`, `encrypt` raises the encryption-length error, and it does so for
every primitive bundle and every random draw — i.e. before the salt is
generated, keys are derived, or any cipher or hash operation is performed.
(A plaintext of exactly `2^64` bytes is accepted: the source checks
`len(data) > 2 ** HALF_BLOCK`.) -/
theorem C4_too_long (c : CryptoLib) (key : PyData) (count : Nat) (ranbits p : List Nat)
    (hlen : 2 ^ 64 < p.length) :
    encrypt c (stdSC key count) (.bytes p) ranbits = .error .tooLong := by
  have h1 : assert_encrypt_length (stdSC key count) p = .error .tooLong := by
    simp only [assert_encrypt_length, show (stdSC key count).HALF_BLOCK = 64 from rfl]
    rw [if_pos (by omega)]
  simp only [encrypt, str_to_bytes, h1]

/-- Witness for C4 (amended): a `2^64 + 1`-byte plaintext is rejected. -/
theorem C4_too_long_witness :
    encrypt cWit (stdSC (.bytes [1]) 1) (.bytes (List.replicate (2 ^ 64 + 1) 0))
      (List.replicate 32 0) = .error .tooLong :=
  C4_too_long cWit (.bytes [1]) 1 (List.replicate 32 0) (List.replicate (2 ^ 64 + 1) 0)
    (by rw [List.length_replicate]; omega)

theorem keystreamBlocks_drop (c : CryptoLib) (key : List Nat) (nb : Nat) (pre : List Nat)
    (haes : ∀ k b, (c.AESBlockEnc k b).length = 16) :
    ∀ (i cnt start : Nat), i ≤ cnt →
      (keystreamBlocks c key nb pre cnt start).drop (16 * i) =
        keystreamBlocks c key nb pre (cnt - i) (start + i) := by
  intro i
  induction i with
  | zero =>
    intro cnt start _
    simp
  | succ i ih =>
    intro cnt start hle
    cases cnt with
    | zero => omega
    | succ cnt =>
      simp only [keystreamBlocks]
      rw [show 16 * (i + 1) = 16 + 16 * i from by ring]
      rw [← List.drop_drop]
      rw [List.drop_left' (haes key (pre ++ natToBytesBE nb start))]
      rw [ih cnt (start + 1) (by omega)]
      have e1 : cnt + 1 - (i + 1) = cnt - i := by omega
      have e2 : start + (i + 1) = start + 1 + i := by omega
      rw [e1, e2]

theorem keystreamBlocks_head (c : CryptoLib) (key : List Nat) (nb : Nat) (pre : List Nat)
    (cnt start : Nat)
    (haes : ∀ k b, (c.AESBlockEnc k b).length = 16) (h : 1 ≤ cnt) :
    (keystreamBlocks c key nb pre cnt start).take 16 =
      c.AESBlockEnc key (pre ++ natToBytesBE nb start) := by
  cases cnt with
  | zero => omega
  | succ n =>
    simp only [keystreamBlocks]
    exact List.take_left' (haes key (pre ++ natToBytesBE nb start))

theorem ctrCrypt_block (c : CryptoLib) (key pre d : List Nat) (i : Nat)
    (haes : ∀ k b, (c.AESBlockEnc k b).length = 16)
    (hi : 16 * (i + 1) ≤ d.length) :
    ((ctrCrypt c key 64 pre d).drop (16 * i)).take 16 =
      List.zipWith Nat.xor ((d.drop (16 * i)).take 16)
        (c.AESBlockEnc key (pre ++ natToBytesBE 8 (1 + i))) := by
  unfold ctrCrypt
  simp only [show (64 : Nat) / 8 = 8 from by norm_num]
  rw [List.drop_zipWith, List.take_zipWith]
  congr 1
  rw [List.drop_take, List.take_take]
  have hmin : min 16 (d.length - 16 * i) = 16 := by omega
  rw [hmin]
  rw [keystreamBlocks_drop c key 8 pre haes i ((d.length + 15) / 16) 1 (by omega)]
  rw [keystreamBlocks_head c key 8 pre _ _ haes (by omega)]

/-- Counterexample to C6 as stated: with a block-cipher model that passes
its input block through, the code's CTR transform (counter low half
starting at 1, the `Counter.new` default) differs from the spec-worded
transform whose counter starts at zero, on the very first block. -/
theorem C6_counterexample :
    ctrCrypt cWit (List.replicate 32 0) 64 (List.replicate 8 0) (List.replicate 16 0) ≠
      ctrCryptSpecZero cWit (List.replicate 32 0) 64 (List.replicate 8 0) (List.replicate 16 0) := by
  decide

/-- C6 (amended): in both `encrypt` and `decrypt` the CTR counter block
fed to the block cipher has its high-order 64 bits fixed to the first 8
bytes of the salt and its low-order 64 bits incrementing per block
starting at ONE (pycryptodome `Counter.new` default `initial_value=1`),
not zero: block `i` of the ciphertext is the plaintext block XORed with
`AES(cipherKey, salt[:8] || BE64(1+i))`, and decryption inverts it with
the same counter blocks. -/
theorem C6_counter_layout (c : CryptoLib) (key : PyData) (count : Nat) (ranbits p : List Nat)
    (i : Nat)
    (hpb : ∀ pw s n cnt, (c.PBKDF2 pw s n cnt).length = n)
    (hml : ∀ k m, (c.HMAC k m).length = 32)
    (haes : ∀ k b, (c.AESBlockEnc k b).length = 16)
    (hkey : pyNot key = false)
    (hraw : ranbits.length = 32)
    (hlen : p.length ≤ 2 ^ 64)
    (hi : 16 * (i + 1) ≤ p.length) :
    ∃ salt ctb mac,
      salt = random_bytes c ranbits ∧
      encrypt c (stdSC key count) (.bytes p) ranbits =
        .ok ((fscMagic ++ [0, 2]) ++ salt ++ ctb ++ mac) ∧
      decrypt c (stdSC key count) (.bytes ((fscMagic ++ [0, 2]) ++ salt ++ ctb ++ mac)) =
        .ok p ∧
      (ctb.drop (16 * i)).take 16 =
        List.zipWith Nat.xor ((p.drop (16 * i)).take 16)
          (c.AESBlockEnc (derivedKeys c key salt count).2
            (salt.take 8 ++ natToBytesBE 8 (1 + i))) ∧
      (p.drop (16 * i)).take 16 =
        List.zipWith Nat.xor ((ctb.drop (16 * i)).take 16)
          (c.AESBlockEnc (derivedKeys c key salt count).2
            (salt.take 8 ++ natToBytesBE 8 (1 + i))) := by
  have hsl : (random_bytes c ranbits).length = 32 := by
    simp [random_bytes, hide, pbkdf2M, hpb, hraw]
  refine ⟨random_bytes c ranbits,
    ctrCrypt c (derivedKeys c key (random_bytes c ranbits) count).2 64
      ((random_bytes c ranbits).take 8) p,
    hmacM c (derivedKeys c key (random_bytes c ranbits) count).1
      (fscMagic ++ [0, 2] ++ random_bytes c ranbits ++
        ctrCrypt c (derivedKeys c key (random_bytes c ranbits) count).2 64
          ((random_bytes c ranbits).take 8) p),
    rfl, ?_, ?_, ?_, ?_⟩
  · exact encrypt_ok c key count ranbits p hpb hkey hraw hlen
  · exact decrypt_envelope c key count (random_bytes c ranbits) p hml haes hkey hsl
  · exact ctrCrypt_block c (derivedKeys c key (random_bytes c ranbits) count).2
      ((random_bytes c ranbits).take 8) p i haes hi
  · rw [ctrCrypt_block c (derivedKeys c key (random_bytes c ranbits) count).2
      ((random_bytes c ranbits).take 8) p i haes hi]
    refine (zipWith_xor_xor _ _ ?_).symm
    rw [haes]
    simp [List.length_take]

/-- Witness for C6 (amended) at a concrete instance, for a 16-byte
plaintext and block index 0. -/
theorem C6_counter_layout_witness :
    ∃ salt ctb mac,
      salt = random_bytes cWit (List.replicate 32 0) ∧
      encrypt cWit (stdSC (.bytes [1]) 1) (.bytes (List.replicate 16 0)) (List.replicate 32 0) =
        .ok ((fscMagic ++ [0, 2]) ++ salt ++ ctb ++ mac) ∧
      decrypt cWit (stdSC (.bytes [1]) 1)
        (.bytes ((fscMagic ++ [0, 2]) ++ salt ++ ctb ++ mac)) = .ok (List.replicate 16 0) ∧
      (ctb.drop (16 * 0)).take 16 =
        List.zipWith Nat.xor (((List.replicate 16 0).drop (16 * 0)).take 16)
          (cWit.AESBlockEnc (derivedKeys cWit (.bytes [1]) salt 1).2
            (salt.take 8 ++ natToBytesBE 8 (1 + 0))) ∧
      ((List.replicate 16 0).drop (16 * 0)).take 16 =
        List.zipWith Nat.xor ((ctb.drop (16 * 0)).take 16)
          (cWit.AESBlockEnc (derivedKeys cWit (.bytes [1]) salt 1).2
            (salt.take 8 ++ natToBytesBE 8 (1 + 0))) :=
  C6_counter_layout cWit (.bytes [1]) 1 (List.replicate 32 0) (List.replicate 16 0) 0
    cWit_pb cWit_ml cWit_aes rfl (by simp) (by decide) (by decide)

/-- C7: for every decoded text value `s`, `decrypt` raises the
decryption-usage error immediately — for every primitive bundle and every
instance state, so before any header, length, key-derivation, MAC or
cipher work, and regardless of whether the byte-equivalent of `s` would be
a valid envelope. -/
theorem C7_rejects_text (c : CryptoLib) (st : SC) (s : List Char) :
    decrypt c st (.text s) = .error .notUnicode := rfl

/-- C8: every invocation of `encrypt` and of `decrypt` leaves the instance
unchanged — the state threaded through every helper call comes back equal
to the input state, so `FSC_KEY`, `EXPANSION_COUNT` and all format
constants keep their values (only `__init__`/`init_app`, modelled by
`stdSC`/`init_app`, ever assign them). -/
theorem C8_frame (c : CryptoLib) (st : SC) (d d2 : PyData) (ranbits : List Nat) :
    (encryptS c st d ranbits).2 = st ∧ (decryptS c st d2).2 = st := by
  constructor
  · simp only [encryptS, assert_encrypt_lengthS, expand_keysS]
    repeat' split
    all_goals simp_all
  · simp only [decryptS, assert_not_unicodeS, assert_header_prefixS, assert_decrypt_lengthS,
      expand_keysS, assert_hmacS]
    repeat' split
    all_goals simp_all [assert_not_unicode]

/-- C9: `encrypt` on a text value `s` behaves identically to `encrypt` on
`s.encode("utf8")` — the plaintext is UTF-8 encoded before the length
check and encryption — and decrypting the resulting envelope returns the
bytes `s.encode("utf8")` (the return type is bytes, not text). -/
theorem C9_text_plaintext (c : CryptoLib) (key : PyData) (count : Nat) (ranbits : List Nat)
    (s : List Char)
    (hpb : ∀ pw sl n cnt, (c.PBKDF2 pw sl n cnt).length = n)
    (hml : ∀ k m, (c.HMAC k m).length = 32)
    (haes : ∀ k b, (c.AESBlockEnc k b).length = 16)
    (hkey : pyNot key = false)
    (hraw : ranbits.length = 32)
    (hlen : (utf8Bytes s).length ≤ 2 ^ 64) :
    encrypt c (stdSC key count) (.text s) ranbits =
      encrypt c (stdSC key count) (.bytes (utf8Bytes s)) ranbits ∧
    ∀ ct, encrypt c (stdSC key count) (.text s) ranbits = .ok ct →
      decrypt c (stdSC key count) (.bytes ct) = .ok (utf8Bytes s) := by
  have heq : encrypt c (stdSC key count) (.text s) ranbits =
      encrypt c (stdSC key count) (.bytes (utf8Bytes s)) ranbits := rfl
  refine ⟨heq, fun ct hct => ?_⟩
  rw [heq, encrypt_ok c key count ranbits (utf8Bytes s) hpb hkey hraw hlen] at hct
  injection hct with h
  subst h
  exact decrypt_envelope c key count (random_bytes c ranbits) (utf8Bytes s) hml haes hkey
    (by simp [random_bytes, hide, pbkdf2M, hpb, hraw])

/-- Witness for C9 at a concrete instance, with the text `"hi"`. -/
theorem C9_text_plaintext_witness :
    encrypt cWit (stdSC (.bytes [1]) 1) (.text ['h', 'i']) (List.replicate 32 0) =
      encrypt cWit (stdSC (.bytes [1]) 1) (.bytes (utf8Bytes ['h', 'i'])) (List.replicate 32 0) :=
  (C9_text_plaintext cWit (.bytes [1]) 1 (List.replicate 32 0) ['h', 'i']
    cWit_pb cWit_ml cWit_aes rfl (by simp) (by decide)).1

theorem utf8EncodeCharM_ne_nil (ch : Char) : utf8EncodeCharM ch ≠ [] := by
  by_cases h1 : ch.toNat < 128
  · simp [utf8EncodeCharM, h1]
  · by_cases h2 : ch.toNat < 2048
    · simp [utf8EncodeCharM, h1, h2]
    · by_cases h3 : ch.toNat < 65536
      · simp [utf8EncodeCharM, h1, h2, h3]
      · simp [utf8EncodeCharM, h1, h2, h3]

theorem utf8Bytes_ne_nil (ch : Char) (t : List Char) : utf8Bytes (ch :: t) ≠ [] := by
  simp only [utf8Bytes, List.flatMap_cons]
  intro h
  rcases List.append_eq_nil.mp h with ⟨h1, _⟩
  exact utf8EncodeCharM_ne_nil ch h1

theorem pyNot_text_utf8 (k : List Char) : pyNot (.text k) = pyNot (.bytes (utf8Bytes k)) := by
  cases k with
  | nil => rfl
  | cons ch t =>
    simp only [pyNot]
    cases hu : utf8Bytes (ch :: t) with
    | nil => exact absurd hu (utf8Bytes_ne_nil ch t)
    | cons a l => rfl

theorem expand_keys_text_key (c : CryptoLib) (count : Nat) (k : List Char) (salt : List Nat)
    (ec : Nat) :
    expand_keys c (stdSC (.text k) count) (.text k) salt ec =
      expand_keys c (stdSC (.bytes (utf8Bytes k)) count) (.bytes (utf8Bytes k)) salt ec := by
  simp only [expand_keys]
  rw [pyNot_text_utf8]
  rfl

/-- C10: a text secret key is accepted and equivalent to its UTF-8 byte
encoding — key expansion converts the key through `_str_to_bytes` before
derivation (and the emptiness check agrees, since UTF-8 encodes a
character to at least one byte), so `encrypt` and `decrypt` on an instance
configured with the text key produce exactly the results of the instance
configured with the encoded bytes key, for every input. -/
theorem C10_text_key (c : CryptoLib) (count : Nat) (k : List Char) (d d2 : PyData)
    (ranbits : List Nat) :
    encrypt c (stdSC (.text k) count) d ranbits =
      encrypt c (stdSC (.bytes (utf8Bytes k)) count) d ranbits ∧
    decrypt c (stdSC (.text k) count) d2 =
      decrypt c (stdSC (.bytes (utf8Bytes k)) count) d2 := by
  constructor
  · simp only [encrypt, assert_encrypt_length,
      show ∀ key, (stdSC key count).FSC_KEY = key from fun _ => rfl,
      show ∀ key, (stdSC key count).EXPANSION_COUNT = count from fun _ => rfl,
      show ∀ key, (stdSC key count).HALF_BLOCK = 64 from fun _ => rfl,
      show ∀ key, (stdSC key count).HEADER = fscMagic ++ [0, 2] from fun _ => rfl]
    rw [expand_keys_text_key]
  · cases d2 with
    | text s => rfl
    | bytes b =>
      simp only [decrypt, assert_not_unicode, decryptBytes, assert_decrypt_length, assert_hmac,
        assert_header_prefix,
        show ∀ key, (stdSC key count).FSC_KEY = key from fun _ => rfl,
        show ∀ key, (stdSC key count).EXPANSION_COUNT = count from fun _ => rfl,
        show ∀ key, (stdSC key count).HALF_BLOCK = 64 from fun _ => rfl,
        show ∀ key, (stdSC key count).PREFIX = fscMagic from fun _ => rfl,
        show ∀ key, (stdSC key count).HEADER_LEN = 5 from fun _ => rfl,
        show ∀ key, (stdSC key count).SALT_LEN = 256 from fun _ => rfl,
        show ∀ key, (stdSC key count).DIGEST_SIZE = 32 from fun _ => rfl]
      rw [expand_keys_text_key]
